import Mathlib

/-!
Verification of the galax multipole potential, Lagrange-point solver,
mock-stream generator and composite phase-space container.

The development shallowly embeds the Python source over an arbitrary field
`R`.  Transcendental library primitives (square root, arc-cosine, atan2,
cosine, sine, and the normalized associated Legendre factor of
`jax.scipy.special.sph_harm`) are external collaborators of the repository,
so they are abstracted into a `RealPrims` bundle; theorems that need a
defining property of a primitive (for example `sqrt x ^ 2 = x`) take it as
an explicit hypothesis.
-/

/-- Bundle of the external numeric primitives used by the source:
`jnp.sqrt`-style vector norm, `jnp.acos`, `jnp.atan2`, cosine and sine,
and `plm l m θ`, the real factor `N_lm · P_l^m (cos θ)` of the spherical
harmonic returned by `jax.scipy.special.sph_harm`
(so that `Y_lm(θ, φ) = plm l m θ · (cos (m φ) + i sin (m φ))`). -/
structure RealPrims (R : Type) where
  sqrt : R → R
  acos : R → R
  atan2 : R → R → R
  cos : R → R
  sin : R → R
  plm : ℕ → ℕ → R → R

/-- A Cartesian 3-vector, the shallow embedding of a shape-`(3,)` array. -/
structure Vec3 (R : Type) where
  x : R
  y : R
  z : R
deriving DecidableEq

/-- Componentwise sum of two 3-vectors. -/
def Vec3.add {R : Type} [Add R] (a b : Vec3 R) : Vec3 R :=
  ⟨a.x + b.x, a.y + b.y, a.z + b.z⟩

/-- Componentwise difference of two 3-vectors. -/
def Vec3.sub {R : Type} [Sub R] (a b : Vec3 R) : Vec3 R :=
  ⟨a.x - b.x, a.y - b.y, a.z - b.z⟩

/-- Scalar multiple of a 3-vector (broadcast multiply). -/
def Vec3.smul {R : Type} [Mul R] (c : R) (a : Vec3 R) : Vec3 R :=
  ⟨c * a.x, c * a.y, c * a.z⟩

/-- Euclidean inner product of two 3-vectors. -/
def Vec3.dot {R : Type} [Add R] [Mul R] (a b : Vec3 R) : R :=
  a.x * b.x + a.y * b.y + a.z * b.z

/-- `jnp.linalg.vector_norm(q, axis=-1)`: Euclidean norm through the
abstract square root. -/
def vectorNorm {R : Type} [Field R] (prim : RealPrims R) (q : Vec3 R) : R :=
  prim.sqrt (Vec3.dot q q)

/-- Embedding of `cartesian_to_normalized_spherical` from
`galax/potential/_src/builtin/multipole.py`:
`r = |q|`, `s = r / r_s`, `θ = acos (z / r)`, `φ = atan2 y x`. -/
def cartesian_to_normalized_spherical {R : Type} [Field R]
    (prim : RealPrims R) (q : Vec3 R) (r_s : R) : R × R × R :=
  let r := vectorNorm prim q
  (r / r_s, prim.acos (q.z / r), prim.atan2 q.y q.x)

/-- Embedding of `compute_Ylm`: the real and imaginary parts of
`sph_harm(m, l, phi, theta)`.  The `n_max` argument of the library only sizes an
internal lookup table and does not change the value, so it is dropped. -/
def compute_Ylm {R : Type} [Field R] (prim : RealPrims R)
    (l m : ℕ) (theta phi : R) : R × R :=
  (prim.plm l m theta * prim.cos ((m : R) * phi),
   prim.plm l m theta * prim.sin ((m : R) * phi))

/-- Embedding of `jnp.tril_indices(n)` as the row-major list of pairs
`(l, m)` with `m ≤ l < n`. -/
def trilIndices : ℕ → List (ℕ × ℕ)
  | 0 => []
  | n + 1 => trilIndices n ++ (List.range (n + 1)).map (fun m => (n, m))

/-- A coefficient array: its shape metadata and a total entry function
(out-of-bounds reads never raise in jax, so entries are total). -/
structure CoeffArray (R : Type) where
  rows : ℕ
  cols : ℕ
  entry : ℕ → ℕ → R

/-- The `.shape` attribute of a coefficient array. -/
def CoeffArray.shape {R : Type} (A : CoeffArray R) : ℕ × ℕ :=
  (A.rows, A.cols)

theorem list_range_map_sum {R : Type} [AddCommMonoid R] (f : ℕ → R) (n : ℕ) :
    ((List.range n).map f).sum = ∑ m ∈ Finset.range n, f m := by
  induction n with
  | zero => simp
  | succ k ih =>
      rw [List.range_succ, Finset.sum_range_succ, List.map_append,
        List.sum_append, ih]
      simp

theorem trilIndices_map_sum {R : Type} [AddCommMonoid R]
    (f : ℕ × ℕ → R) (n : ℕ) :
    ((trilIndices n).map f).sum
      = ∑ l ∈ Finset.range n, ∑ m ∈ Finset.range (l + 1), f (l, m) := by
  induction n with
  | zero => simp [trilIndices]
  | succ k ih =>
      rw [trilIndices, List.map_append, List.sum_append, ih,
        Finset.sum_range_succ, List.map_map]
      rw [list_range_map_sum (f ∘ fun m => (k, m)) (k + 1)]
      rfl

theorem list_map_ext {α β : Type} (f g : α → β) (l : List α)
    (h : ∀ a, f a = g a) : l.map f = l.map g := by
  induction l with
  | nil => rfl
  | cons a l ih => simp [h, ih]

/-- Embedding of `MultipoleInnerPotential` from
`galax/potential/_src/builtin/multipole.py`: the gravitational constant of
the unit system, the time-dependent parameters `m_tot`, `r_s` and the
coefficient arrays `Slm`, `Tlm`, and the static `l_max`. -/
structure MultipoleInnerPotential (R : Type) where
  G : R
  m_tot : R → R
  r_s : R → R
  l_max : ℕ
  Slm : R → CoeffArray R
  Tlm : R → CoeffArray R

/-- Embedding of `MultipoleOuterPotential` (same fields as the inner
expansion; the evaluation differs in the radial power). -/
structure MultipoleOuterPotential (R : Type) where
  G : R
  m_tot : R → R
  r_s : R → R
  l_max : ℕ
  Slm : R → CoeffArray R
  Tlm : R → CoeffArray R

/-- Embedding of the combined `MultipolePotential` with inner and outer
coefficient arrays. -/
structure MultipolePotential (R : Type) where
  G : R
  m_tot : R → R
  r_s : R → R
  l_max : ℕ
  ISlm : R → CoeffArray R
  ITlm : R → CoeffArray R
  OSlm : R → CoeffArray R
  OTlm : R → CoeffArray R

/-- Embedding of `MultipoleInnerPotential.__check_init__`: the parameters
are evaluated at `t = 0` Gyr and their shapes compared against
`(l_max + 1, l_max + 1)`; a mismatch raises a `ValueError` (the embedded
message omits the interpolated shape values of the f-string). -/
def MultipoleInnerPotential.check_init {R : Type} [Field R]
    (p : MultipoleInnerPotential R) : Except String Unit :=
  if (p.Slm 0).shape ≠ (p.l_max + 1, p.l_max + 1)
      ∨ (p.Tlm 0).shape ≠ (p.l_max + 1, p.l_max + 1) then
    Except.error "Slm and Tlm must have the shape (l_max + 1, l_max + 1)."
  else
    Except.ok ()

/-- Embedding of `MultipoleOuterPotential.__check_init__`. -/
def MultipoleOuterPotential.check_init {R : Type} [Field R]
    (p : MultipoleOuterPotential R) : Except String Unit :=
  if (p.Slm 0).shape ≠ (p.l_max + 1, p.l_max + 1)
      ∨ (p.Tlm 0).shape ≠ (p.l_max + 1, p.l_max + 1) then
    Except.error "Slm and Tlm must have the shape (l_max + 1, l_max + 1)."
  else
    Except.ok ()

/-- Embedding of `MultipolePotential.__check_init__` (all four coefficient
arrays are checked at `t = 0` Gyr). -/
def MultipolePotential.check_init {R : Type} [Field R]
    (p : MultipolePotential R) : Except String Unit :=
  if (p.ISlm 0).shape ≠ (p.l_max + 1, p.l_max + 1)
      ∨ (p.ITlm 0).shape ≠ (p.l_max + 1, p.l_max + 1)
      ∨ (p.OSlm 0).shape ≠ (p.l_max + 1, p.l_max + 1)
      ∨ (p.OTlm 0).shape ≠ (p.l_max + 1, p.l_max + 1) then
    Except.error "I/OSlm and I/OTlm must have the shape (l_max + 1, l_max + 1)."
  else
    Except.ok ()

/-- The `summand` closure of `MultipoleInnerPotential._potential`:
`jnp.pow(s, l) * (Slm[l, m] * cPlm + Tlm[l, m] * sPlm)`. -/
def MultipoleInnerPotential.summand {R : Type} [Field R]
    (p : MultipoleInnerPotential R) (prim : RealPrims R) (t : R)
    (l m : ℕ) (s theta phi : R) : R :=
  let Y := compute_Ylm prim l m theta phi
  s ^ l * ((p.Slm t).entry l m * Y.1 + (p.Tlm t).entry l m * Y.2)

/-- The `summand` closure of `MultipoleOuterPotential._potential`:
`jnp.pow(s, -(l + 1)) * (Slm[l, m] * cPlm + Tlm[l, m] * sPlm)`. -/
def MultipoleOuterPotential.summand {R : Type} [Field R]
    (p : MultipoleOuterPotential R) (prim : RealPrims R) (t : R)
    (l m : ℕ) (s theta phi : R) : R :=
  let Y := compute_Ylm prim l m theta phi
  s ^ (-((l : ℤ) + 1)) * ((p.Slm t).entry l m * Y.1 + (p.Tlm t).entry l m * Y.2)

/-- The `summand` closure of `MultipolePotential._potential`: inner plus
outer contribution. -/
def MultipolePotential.summand {R : Type} [Field R]
    (p : MultipolePotential R) (prim : RealPrims R) (t : R)
    (l m : ℕ) (s theta phi : R) : R :=
  let Y := compute_Ylm prim l m theta phi
  s ^ l * ((p.ISlm t).entry l m * Y.1 + (p.ITlm t).entry l m * Y.2)
    + s ^ (-(l : ℤ) - 1) * ((p.OSlm t).entry l m * Y.1 + (p.OTlm t).entry l m * Y.2)

/-- Per-point value of `jnp.sum(jax.vmap(summand)(ls, ms), axis=0)` for the
inner expansion, with `(ls, ms) = jnp.tril_indices(l_max + 1)` and
`(s, θ, φ)` the normalized spherical coordinates of `q`. -/
def MultipoleInnerPotential.summation {R : Type} [Field R]
    (p : MultipoleInnerPotential R) (prim : RealPrims R) (t : R)
    (q : Vec3 R) : R :=
  let sph := cartesian_to_normalized_spherical prim q (p.r_s t)
  ((trilIndices (p.l_max + 1)).map
    (fun lm => p.summand prim t lm.1 lm.2 sph.1 sph.2.1 sph.2.2)).sum

/-- Per-point summation for the outer expansion. -/
def MultipoleOuterPotential.summation {R : Type} [Field R]
    (p : MultipoleOuterPotential R) (prim : RealPrims R) (t : R)
    (q : Vec3 R) : R :=
  let sph := cartesian_to_normalized_spherical prim q (p.r_s t)
  ((trilIndices (p.l_max + 1)).map
    (fun lm => p.summand prim t lm.1 lm.2 sph.1 sph.2.1 sph.2.2)).sum

/-- Per-point summation for the combined expansion. -/
def MultipolePotential.summation {R : Type} [Field R]
    (p : MultipolePotential R) (prim : RealPrims R) (t : R)
    (q : Vec3 R) : R :=
  let sph := cartesian_to_normalized_spherical prim q (p.r_s t)
  ((trilIndices (p.l_max + 1)).map
    (fun lm => p.summand prim t lm.1 lm.2 sph.1 sph.2.1 sph.2.2)).sum

/-- `MultipoleInnerPotential._potential` on a batch input (`xyz.ndim == 2`):
the summation is computed per batch element and the prefactor
`G * m_tot / r_s` broadcasts over the batch. -/
def MultipoleInnerPotential.potentialBatch {R : Type} [Field R]
    (p : MultipoleInnerPotential R) (prim : RealPrims R)
    (xs : List (Vec3 R)) (t : R) : List R :=
  (xs.map (p.summation prim t)).map (fun v => p.G * p.m_tot t / p.r_s t * v)

/-- `MultipoleInnerPotential._potential` on a scalar input
(`xyz.ndim == 1`): `jnp.atleast_2d` promotes to a batch of one, the
summation is indexed at `[0]`, then scaled. -/
def MultipoleInnerPotential.potentialScalar {R : Type} [Field R]
    (p : MultipoleInnerPotential R) (prim : RealPrims R)
    (q : Vec3 R) (t : R) : R :=
  p.G * p.m_tot t / p.r_s t * (([q].map (p.summation prim t)).headD 0)

/-- `MultipoleOuterPotential._potential` on a batch input. -/
def MultipoleOuterPotential.potentialBatch {R : Type} [Field R]
    (p : MultipoleOuterPotential R) (prim : RealPrims R)
    (xs : List (Vec3 R)) (t : R) : List R :=
  (xs.map (p.summation prim t)).map (fun v => p.G * p.m_tot t / p.r_s t * v)

/-- `MultipoleOuterPotential._potential` on a scalar input. -/
def MultipoleOuterPotential.potentialScalar {R : Type} [Field R]
    (p : MultipoleOuterPotential R) (prim : RealPrims R)
    (q : Vec3 R) (t : R) : R :=
  p.G * p.m_tot t / p.r_s t * (([q].map (p.summation prim t)).headD 0)

/-- `MultipolePotential._potential` on a batch input. -/
def MultipolePotential.potentialBatch {R : Type} [Field R]
    (p : MultipolePotential R) (prim : RealPrims R)
    (xs : List (Vec3 R)) (t : R) : List R :=
  (xs.map (p.summation prim t)).map (fun v => p.G * p.m_tot t / p.r_s t * v)

/-- `MultipolePotential._potential` on a scalar input. -/
def MultipolePotential.potentialScalar {R : Type} [Field R]
    (p : MultipolePotential R) (prim : RealPrims R)
    (q : Vec3 R) (t : R) : R :=
  p.G * p.m_tot t / p.r_s t * (([q].map (p.summation prim t)).headD 0)

/-- Formula written from the words of the spec for the inner expansion: scale
`G * m_tot / r_s` times the sum over all `(l, m)` with
`0 ≤ m ≤ l ≤ l_max` of `s^l` times
`(Slm * cos (m φ) + Tlm * sin (m φ))` times the real factor of the
spherical harmonic `Y_lm (θ, φ)`, with `(s, θ, φ)` the normalized
spherical coordinates of the position. -/
def specInnerPotential {R : Type} [Field R] (prim : RealPrims R)
    (G mtot rs : R) (S T : ℕ → ℕ → R) (lmax : ℕ) (q : Vec3 R) : R :=
  let sph := cartesian_to_normalized_spherical prim q rs
  G * mtot / rs *
    ∑ l ∈ Finset.range (lmax + 1), ∑ m ∈ Finset.range (l + 1),
      sph.1 ^ l
        * (S l m * prim.cos ((m : R) * sph.2.2)
            + T l m * prim.sin ((m : R) * sph.2.2))
        * prim.plm l m sph.2.1

/-- Formula written from the words of the spec for the outer expansion:
as `specInnerPotential` with `s ^ (-(l + 1))` in place of `s ^ l`. -/
def specOuterPotential {R : Type} [Field R] (prim : RealPrims R)
    (G mtot rs : R) (S T : ℕ → ℕ → R) (lmax : ℕ) (q : Vec3 R) : R :=
  let sph := cartesian_to_normalized_spherical prim q rs
  G * mtot / rs *
    ∑ l ∈ Finset.range (lmax + 1), ∑ m ∈ Finset.range (l + 1),
      sph.1 ^ (-((l : ℤ) + 1))
        * (S l m * prim.cos ((m : R) * sph.2.2)
            + T l m * prim.sin ((m : R) * sph.2.2))
        * prim.plm l m sph.2.1

theorem inner_summation_eq_double_sum {R : Type} [Field R]
    (p : MultipoleInnerPotential R) (prim : RealPrims R) (t : R)
    (q : Vec3 R) :
    p.summation prim t q
      = ∑ l ∈ Finset.range (p.l_max + 1), ∑ m ∈ Finset.range (l + 1),
          (cartesian_to_normalized_spherical prim q (p.r_s t)).1 ^ l
            * ((p.Slm t).entry l m
                * prim.cos ((m : R)
                    * (cartesian_to_normalized_spherical prim q (p.r_s t)).2.2)
              + (p.Tlm t).entry l m
                * prim.sin ((m : R)
                    * (cartesian_to_normalized_spherical prim q (p.r_s t)).2.2))
            * prim.plm l m
                (cartesian_to_normalized_spherical prim q (p.r_s t)).2.1 := by
  unfold MultipoleInnerPotential.summation
  rw [trilIndices_map_sum]
  refine Finset.sum_congr rfl (fun l _ => Finset.sum_congr rfl (fun m _ => ?_))
  unfold MultipoleInnerPotential.summand compute_Ylm
  ring

theorem outer_summation_eq_double_sum {R : Type} [Field R]
    (p : MultipoleOuterPotential R) (prim : RealPrims R) (t : R)
    (q : Vec3 R) :
    p.summation prim t q
      = ∑ l ∈ Finset.range (p.l_max + 1), ∑ m ∈ Finset.range (l + 1),
          (cartesian_to_normalized_spherical prim q (p.r_s t)).1 ^ (-((l : ℤ) + 1))
            * ((p.Slm t).entry l m
                * prim.cos ((m : R)
                    * (cartesian_to_normalized_spherical prim q (p.r_s t)).2.2)
              + (p.Tlm t).entry l m
                * prim.sin ((m : R)
                    * (cartesian_to_normalized_spherical prim q (p.r_s t)).2.2))
            * prim.plm l m
                (cartesian_to_normalized_spherical prim q (p.r_s t)).2.1 := by
  unfold MultipoleOuterPotential.summation
  rw [trilIndices_map_sum]
  refine Finset.sum_congr rfl (fun l _ => Finset.sum_congr rfl (fun m _ => ?_))
  unfold MultipoleOuterPotential.summand compute_Ylm
  ring

/-- Claim C1: for every position batch and time, the inner multipole
potential returns `G * m_tot / r_s` times the sum over all `(l, m)` with
`0 ≤ m ≤ l ≤ l_max` of `s^l * (Slm * cos (m φ) + Tlm * sin (m φ))`
combined with the real/imaginary factors of the spherical harmonic
`Y_lm (θ, φ)`, and the outer potential returns the same with
`s ^ (-(l + 1))` in place of `s^l`, where `(s, θ, φ)` are the normalized
spherical coordinates of the position. -/
theorem multipole_inner_outer_match_spec_formula {R : Type} [Field R]
    (prim : RealPrims R) (pin : MultipoleInnerPotential R)
    (pout : MultipoleOuterPotential R) (xs : List (Vec3 R)) (t : R) :
    pin.potentialBatch prim xs t
      = xs.map (fun q => specInnerPotential prim pin.G (pin.m_tot t)
          (pin.r_s t) (fun l m => (pin.Slm t).entry l m)
          (fun l m => (pin.Tlm t).entry l m) pin.l_max q)
  ∧ pout.potentialBatch prim xs t
      = xs.map (fun q => specOuterPotential prim pout.G (pout.m_tot t)
          (pout.r_s t) (fun l m => (pout.Slm t).entry l m)
          (fun l m => (pout.Tlm t).entry l m) pout.l_max q) := by
  constructor
  · unfold MultipoleInnerPotential.potentialBatch
    rw [List.map_map]
    refine list_map_ext _ _ xs (fun q => ?_)
    show pin.G * pin.m_tot t / pin.r_s t * pin.summation prim t q
      = specInnerPotential prim pin.G (pin.m_tot t) (pin.r_s t)
          (fun l m => (pin.Slm t).entry l m)
          (fun l m => (pin.Tlm t).entry l m) pin.l_max q
    rw [inner_summation_eq_double_sum]
    rfl
  · unfold MultipoleOuterPotential.potentialBatch
    rw [List.map_map]
    refine list_map_ext _ _ xs (fun q => ?_)
    show pout.G * pout.m_tot t / pout.r_s t * pout.summation prim t q
      = specOuterPotential prim pout.G (pout.m_tot t) (pout.r_s t)
          (fun l m => (pout.Slm t).entry l m)
          (fun l m => (pout.Tlm t).entry l m) pout.l_max q
    rw [outer_summation_eq_double_sum]
    rfl

/-- Claim C8: for a scalar (non-batched) position, each multipole
potential promotes the input to a batch of one, computes the batched
summation, and squeezes back, so the scalar result equals the first
element of the evaluation on the batch-of-one input. -/
theorem multipole_scalar_is_squeezed_batch_of_one {R : Type} [Field R]
    (prim : RealPrims R) (pin : MultipoleInnerPotential R)
    (pout : MultipoleOuterPotential R) (pc : MultipolePotential R)
    (q : Vec3 R) (t : R) :
    pin.potentialScalar prim q t = (pin.potentialBatch prim [q] t).headD 0
  ∧ pout.potentialScalar prim q t = (pout.potentialBatch prim [q] t).headD 0
  ∧ pc.potentialScalar prim q t = (pc.potentialBatch prim [q] t).headD 0 :=
  ⟨rfl, rfl, rfl⟩

/-- Claim C4: a coefficient array whose shape is not
`(l_max + 1, l_max + 1)` makes `__check_init__` raise a `ValueError` at
construction time for each of the three multipole potential classes, and
evaluation never raises this error: the evaluation reads only the entries
of the coefficient arrays, never their shape metadata. -/
theorem multipole_shape_error_at_construction_only {R : Type} [Field R]
    (prim : RealPrims R) (pin : MultipoleInnerPotential R)
    (pout : MultipoleOuterPotential R) (pc : MultipolePotential R)
    (Sin Tin : R → CoeffArray R) (xs : List (Vec3 R)) (t : R)
    (hin : (pin.Slm 0).shape ≠ (pin.l_max + 1, pin.l_max + 1)
        ∨ (pin.Tlm 0).shape ≠ (pin.l_max + 1, pin.l_max + 1))
    (hout : (pout.Slm 0).shape ≠ (pout.l_max + 1, pout.l_max + 1)
        ∨ (pout.Tlm 0).shape ≠ (pout.l_max + 1, pout.l_max + 1))
    (hc : (pc.ISlm 0).shape ≠ (pc.l_max + 1, pc.l_max + 1)
        ∨ (pc.ITlm 0).shape ≠ (pc.l_max + 1, pc.l_max + 1)
        ∨ (pc.OSlm 0).shape ≠ (pc.l_max + 1, pc.l_max + 1)
        ∨ (pc.OTlm 0).shape ≠ (pc.l_max + 1, pc.l_max + 1))
    (hS : ∀ u l m, (Sin u).entry l m = (pin.Slm u).entry l m)
    (hT : ∀ u l m, (Tin u).entry l m = (pin.Tlm u).entry l m) :
    pin.check_init
      = Except.error "Slm and Tlm must have the shape (l_max + 1, l_max + 1)."
  ∧ pout.check_init
      = Except.error "Slm and Tlm must have the shape (l_max + 1, l_max + 1)."
  ∧ pc.check_init
      = Except.error "I/OSlm and I/OTlm must have the shape (l_max + 1, l_max + 1)."
  ∧ ({ pin with Slm := Sin, Tlm := Tin }
        : MultipoleInnerPotential R).potentialBatch prim xs t
      = pin.potentialBatch prim xs t := by
  refine ⟨?_, ?_, ?_, ?_⟩
  · unfold MultipoleInnerPotential.check_init
    exact if_pos hin
  · unfold MultipoleOuterPotential.check_init
    exact if_pos hout
  · unfold MultipolePotential.check_init
    exact if_pos hc
  · unfold MultipoleInnerPotential.potentialBatch
    refine congrArg _ (list_map_ext _ _ xs (fun q => ?_))
    unfold MultipoleInnerPotential.summation
    refine congrArg _ (list_map_ext _ _ _ (fun lm => ?_))
    unfold MultipoleInnerPotential.summand
    simp only [hS, hT]

/-- Concrete primitive bundle over `ℚ` used for witnesses. -/
def primQ : RealPrims ℚ :=
  ⟨id, id, fun _ _ => 0, fun _ => 1, fun _ => 0, fun _ _ _ => 1⟩

/-- A `1 × 1` all-ones coefficient array. -/
def onesArr1 : CoeffArray ℚ := ⟨1, 1, fun _ _ => 1⟩

/-- A `1 × 1` all-zeros coefficient array. -/
def zerosArr1 : CoeffArray ℚ := ⟨1, 1, fun _ _ => 0⟩

/-- A `2 × 2` all-ones coefficient array (wrong shape for `l_max = 0`). -/
def onesArr2 : CoeffArray ℚ := ⟨2, 2, fun _ _ => 1⟩

/-- An inner multipole potential with `l_max = 0` whose coefficient arrays
have the mismatched shape `(2, 2)`. -/
def badInnerPot : MultipoleInnerPotential ℚ :=
  ⟨1, fun _ => 1, fun _ => 1, 0, fun _ => onesArr2, fun _ => onesArr2⟩

/-- An outer multipole potential with `l_max = 0` and `(2, 2)`-shaped
coefficient arrays. -/
def badOuterPot : MultipoleOuterPotential ℚ :=
  ⟨1, fun _ => 1, fun _ => 1, 0, fun _ => onesArr2, fun _ => onesArr2⟩

/-- A combined multipole potential with `l_max = 0` and `(2, 2)`-shaped
coefficient arrays. -/
def badCombPot : MultipolePotential ℚ :=
  ⟨1, fun _ => 1, fun _ => 1, 0, fun _ => onesArr2, fun _ => onesArr2,
    fun _ => onesArr2, fun _ => onesArr2⟩

/-- A coefficient array with entries equal to `onesArr2` but different
shape metadata. -/
def onesArr57 : CoeffArray ℚ := ⟨5, 7, fun _ _ => 1⟩

/-- Witness for claim C4 at concrete ill-shaped potentials. -/
theorem multipole_shape_error_at_construction_only_witness :
    badInnerPot.check_init
      = Except.error "Slm and Tlm must have the shape (l_max + 1, l_max + 1)."
  ∧ badOuterPot.check_init
      = Except.error "Slm and Tlm must have the shape (l_max + 1, l_max + 1)."
  ∧ badCombPot.check_init
      = Except.error "I/OSlm and I/OTlm must have the shape (l_max + 1, l_max + 1)."
  ∧ ({ badInnerPot with
        Slm := fun _ => onesArr57,
        Tlm := fun _ => onesArr57 }
        : MultipoleInnerPotential ℚ).potentialBatch primQ [⟨1, 0, 0⟩] 0
      = badInnerPot.potentialBatch primQ [⟨1, 0, 0⟩] 0 :=
  multipole_shape_error_at_construction_only primQ badInnerPot badOuterPot
    badCombPot (fun _ => onesArr57) (fun _ => onesArr57) [⟨1, 0, 0⟩] 0
    (Or.inl (by decide)) (Or.inl (by decide)) (Or.inl (by decide))
    (fun _ _ _ => rfl) (fun _ _ _ => rfl)

/-- An inner multipole potential over `ℚ` with `l_max = 0` whose `Slm`
parameter is time-dependent: shape `(1, 1)` at `t = 0` and shape `(2, 2)`
at every other time. -/
def timeDepInnerPot : MultipoleInnerPotential ℚ :=
  ⟨1, fun _ => 1, fun _ => 1, 0,
    fun t => if t = 0 then onesArr1 else onesArr2,
    fun _ => zerosArr1⟩

/-- An inner multipole potential over `ℚ` with the same `t = 0`
parameter values as `timeDepInnerPot` but constant in time. -/
def constInnerPot : MultipoleInnerPotential ℚ :=
  ⟨1, fun _ => 1, fun _ => 1, 0, fun _ => onesArr1, fun _ => zerosArr1⟩

/-- An outer multipole potential over `ℚ` with `l_max = 0` whose `Slm`
parameter has shape `(1, 1)` at `t = 0` and shape `(2, 2)` elsewhere. -/
def timeDepOuterPot : MultipoleOuterPotential ℚ :=
  ⟨1, fun _ => 1, fun _ => 1, 0,
    fun t => if t = 0 then onesArr1 else onesArr2,
    fun _ => zerosArr1⟩

/-- An outer multipole potential over `ℚ` with the same `t = 0`
parameter values as `timeDepOuterPot` but constant in time. -/
def constOuterPot : MultipoleOuterPotential ℚ :=
  ⟨1, fun _ => 1, fun _ => 1, 0, fun _ => onesArr1, fun _ => zerosArr1⟩

/-- A combined multipole potential over `ℚ` with `l_max = 0` whose `ISlm`
parameter has shape `(1, 1)` at `t = 0` and shape `(2, 2)` elsewhere. -/
def timeDepCombPot : MultipolePotential ℚ :=
  ⟨1, fun _ => 1, fun _ => 1, 0,
    fun t => if t = 0 then onesArr1 else onesArr2,
    fun _ => zerosArr1, fun _ => onesArr1, fun _ => zerosArr1⟩

/-- A combined multipole potential over `ℚ` with the same `t = 0`
parameter values as `timeDepCombPot` but constant in time. -/
def constCombPot : MultipolePotential ℚ :=
  ⟨1, fun _ => 1, fun _ => 1, 0, fun _ => onesArr1, fun _ => zerosArr1,
    fun _ => onesArr1, fun _ => zerosArr1⟩

/-- Claim C10: the `__check_init__` of every multipole potential class
(inner, outer, and combined) evaluates the coefficient parameters only at
`t = 0` Gyr — each is determined by the parameter values there — so for
each class the concrete time-dependent potential whose coefficient
parameter has shape `(1, 1)` at `t = 0` but `(2, 2)` at `t = 1` is
constructed without error. -/
theorem check_init_only_reads_t0 {R : Type} [Field R]
    (p q : MultipoleInnerPotential R) (hl : p.l_max = q.l_max)
    (hS : p.Slm 0 = q.Slm 0) (hT : p.Tlm 0 = q.Tlm 0)
    (po qo : MultipoleOuterPotential R) (hlo : po.l_max = qo.l_max)
    (hSo : po.Slm 0 = qo.Slm 0) (hTo : po.Tlm 0 = qo.Tlm 0)
    (pc qc : MultipolePotential R) (hlc : pc.l_max = qc.l_max)
    (hIS : pc.ISlm 0 = qc.ISlm 0) (hIT : pc.ITlm 0 = qc.ITlm 0)
    (hOS : pc.OSlm 0 = qc.OSlm 0) (hOT : pc.OTlm 0 = qc.OTlm 0) :
    p.check_init = q.check_init
  ∧ po.check_init = qo.check_init
  ∧ pc.check_init = qc.check_init
  ∧ timeDepInnerPot.check_init = Except.ok ()
  ∧ (timeDepInnerPot.Slm 1).shape
      ≠ (timeDepInnerPot.l_max + 1, timeDepInnerPot.l_max + 1)
  ∧ timeDepOuterPot.check_init = Except.ok ()
  ∧ (timeDepOuterPot.Slm 1).shape
      ≠ (timeDepOuterPot.l_max + 1, timeDepOuterPot.l_max + 1)
  ∧ timeDepCombPot.check_init = Except.ok ()
  ∧ (timeDepCombPot.ISlm 1).shape
      ≠ (timeDepCombPot.l_max + 1, timeDepCombPot.l_max + 1) := by
  refine ⟨?_, ?_, ?_, ?_, ?_, ?_, ?_, ?_, ?_⟩
  · unfold MultipoleInnerPotential.check_init
    rw [hl, hS, hT]
  · unfold MultipoleOuterPotential.check_init
    rw [hlo, hSo, hTo]
  · unfold MultipolePotential.check_init
    rw [hlc, hIS, hIT, hOS, hOT]
  · rfl
  · decide
  · rfl
  · decide
  · rfl
  · decide

/-- Witness for claim C10: for each class the time-dependent potential
and its constant-in-time counterpart agree at `t = 0`, hence their
construction checks agree. -/
theorem check_init_only_reads_t0_witness :
    timeDepInnerPot.check_init = constInnerPot.check_init
  ∧ timeDepOuterPot.check_init = constOuterPot.check_init
  ∧ timeDepCombPot.check_init = constCombPot.check_init
  ∧ timeDepInnerPot.check_init = Except.ok ()
  ∧ (timeDepInnerPot.Slm 1).shape
      ≠ (timeDepInnerPot.l_max + 1, timeDepInnerPot.l_max + 1)
  ∧ timeDepOuterPot.check_init = Except.ok ()
  ∧ (timeDepOuterPot.Slm 1).shape
      ≠ (timeDepOuterPot.l_max + 1, timeDepOuterPot.l_max + 1)
  ∧ timeDepCombPot.check_init = Except.ok ()
  ∧ (timeDepCombPot.ISlm 1).shape
      ≠ (timeDepCombPot.l_max + 1, timeDepCombPot.l_max + 1) :=
  check_init_only_reads_t0 timeDepInnerPot constInnerPot rfl
    (by simp [timeDepInnerPot, constInnerPot]) rfl
    timeDepOuterPot constOuterPot rfl
    (by simp [timeDepOuterPot, constOuterPot]) rfl
    timeDepCombPot constCombPot rfl
    (by simp [timeDepCombPot, constCombPot]) rfl rfl rfl

theorem inner_monopole_value {R : Type} [Field R]
    (prim : RealPrims R) (p : MultipoleInnerPotential R) (q : Vec3 R)
    (t y00 : R) (hl : p.l_max = 0) (hS : (p.Slm t).entry 0 0 = 1)
    (hT : (p.Tlm t).entry 0 0 = 0) (hcos : prim.cos 0 = 1)
    (hplm : ∀ th, prim.plm 0 0 th = y00) :
    p.potentialScalar prim q t = p.G * p.m_tot t / p.r_s t * y00 := by
  have hsum : p.summation prim t q = y00 := by
    unfold MultipoleInnerPotential.summation
    rw [hl]
    have htril : trilIndices (0 + 1) = [(0, 0)] := rfl
    rw [htril]
    simp only [List.map_cons, List.map_nil, List.sum_cons, List.sum_nil,
      add_zero]
    unfold MultipoleInnerPotential.summand compute_Ylm
    rw [hS, hT, hplm]
    simp [hcos]
  unfold MultipoleInnerPotential.potentialScalar
  simp only [List.map_cons, List.map_nil, List.headD_cons]
  rw [hsum]

theorem outer_monopole_value {R : Type} [Field R]
    (prim : RealPrims R) (p : MultipoleOuterPotential R) (q : Vec3 R)
    (t y00 : R) (hl : p.l_max = 0) (hS : (p.Slm t).entry 0 0 = 1)
    (hT : (p.Tlm t).entry 0 0 = 0) (hcos : prim.cos 0 = 1)
    (hplm : ∀ th, prim.plm 0 0 th = y00) (hrs : p.r_s t ≠ 0) :
    p.potentialScalar prim q t
      = p.G * p.m_tot t * y00 / vectorNorm prim q := by
  have hsum : p.summation prim t q
      = (vectorNorm prim q / p.r_s t)⁻¹ * y00 := by
    unfold MultipoleOuterPotential.summation
    rw [hl]
    have htril : trilIndices (0 + 1) = [(0, 0)] := rfl
    rw [htril]
    simp only [List.map_cons, List.map_nil, List.sum_cons, List.sum_nil,
      add_zero]
    unfold MultipoleOuterPotential.summand compute_Ylm
    rw [hS, hT, hplm]
    have hexp : (-(((0 : ℕ) : ℤ) + 1)) = (-1 : ℤ) := by norm_num
    rw [hexp, zpow_neg_one]
    simp [hcos, cartesian_to_normalized_spherical]
  unfold MultipoleOuterPotential.potentialScalar
  simp only [List.map_cons, List.map_nil, List.headD_cons]
  rw [hsum, inv_div]
  rcases eq_or_ne (vectorNorm prim q) 0 with h0 | h0
  · simp [h0]
  · field_simp
    ring

/-- Claim C5: a multipole potential with `l_max = 0`, `S00 = 1`, `T00 = 0`
evaluates, in the outer expansion, to a function proportional to `1 / r`
(point-mass-like monopole scaling), and in the inner expansion to a
constant independent of the position, matching the monopole closed form. -/
theorem multipole_monopole_closed_form {R : Type} [Field R]
    (prim : RealPrims R) (pin : MultipoleInnerPotential R)
    (pout : MultipoleOuterPotential R) (q q' : Vec3 R) (t y00 : R)
    (hil : pin.l_max = 0) (hiS : (pin.Slm t).entry 0 0 = 1)
    (hiT : (pin.Tlm t).entry 0 0 = 0)
    (hol : pout.l_max = 0) (hoS : (pout.Slm t).entry 0 0 = 1)
    (hoT : (pout.Tlm t).entry 0 0 = 0)
    (hcos : prim.cos 0 = 1) (hplm : ∀ th, prim.plm 0 0 th = y00)
    (hrs : pout.r_s t ≠ 0) :
    pin.potentialScalar prim q t = pin.potentialScalar prim q' t
  ∧ pout.potentialScalar prim q t
      = pout.G * pout.m_tot t * y00 / vectorNorm prim q := by
  constructor
  · rw [inner_monopole_value prim pin q t y00 hil hiS hiT
      hcos hplm,
      inner_monopole_value prim pin q' t y00 hil hiS hiT
      hcos hplm]
  · exact outer_monopole_value prim pout q t y00 hol hoS
      hoT hcos hplm hrs

/-- Inner monopole potential over `ℚ` (good shapes, `S00 = 1`, `T00 = 0`). -/
def monoInnerPot : MultipoleInnerPotential ℚ :=
  ⟨1, fun _ => 1, fun _ => 1, 0, fun _ => onesArr1, fun _ => zerosArr1⟩

/-- Outer monopole potential over `ℚ`. -/
def monoOuterPot : MultipoleOuterPotential ℚ :=
  ⟨1, fun _ => 1, fun _ => 1, 0, fun _ => onesArr1, fun _ => zerosArr1⟩

/-- Witness for claim C5 at two concrete positions. -/
theorem multipole_monopole_closed_form_witness :
    monoInnerPot.potentialScalar primQ ⟨1, 0, 0⟩ 0
      = monoInnerPot.potentialScalar primQ ⟨0, 2, 0⟩ 0
  ∧ monoOuterPot.potentialScalar primQ ⟨1, 0, 0⟩ 0
      = monoOuterPot.G * monoOuterPot.m_tot 0 * 1
          / vectorNorm primQ ⟨1, 0, 0⟩ :=
  multipole_monopole_closed_form primQ monoInnerPot monoOuterPot
    ⟨1, 0, 0⟩ ⟨0, 2, 0⟩ 0 1 rfl rfl rfl rfl rfl rfl rfl (fun _ => rfl)
    (by norm_num [monoOuterPot])

/-- Embedding of `L1L2LagrangePoints` from
`galax/dynamics/_src/cluster`: the pair of inner and outer tidal boundary
positions. -/
structure L1L2LagrangePoints (R : Type) where
  l1 : Vec3 R
  l2 : Vec3 R
deriving DecidableEq

/-- `cx.vecs.normalize_vector` (external coordinax collaborator,
modelled at its interface): the componentwise quotient `x / |x|`. -/
def normalize_vector {R : Type} [Field R] (prim : RealPrims R)
    (v : Vec3 R) : Vec3 R :=
  let n := vectorNorm prim v
  ⟨v.x / n, v.y / n, v.z / n⟩

/-- Stand-in for a host potential paired with `tidal_radius_king1962`
(whose module `cluster/radius.py` is not among the given sources): a
function of progenitor position, velocity, mass and time yielding the
tidal radius. -/
def TidalRadiusFn (R : Type) : Type :=
  Vec3 R → Vec3 R → R → R → R

/-- Embedding of the vector-form `lagrange_points` overload from
`galax/dynamics/_src/cluster/register_funcs.py`:
`r_t = tidal_radius_king1962(potential, x, v, mass, t)`,
`r_hat = normalize_vector(x)`, `l1 = x - r_hat * r_t`,
`l2 = x + r_hat * r_t`. -/
def lagrange_points {R : Type} [Field R] (prim : RealPrims R)
    (rtf : TidalRadiusFn R) (x v : Vec3 R) (mass t : R) :
    L1L2LagrangePoints R :=
  let r_t := rtf x v mass t
  let r_hat := normalize_vector prim x
  ⟨Vec3.sub x (Vec3.smul r_t r_hat), Vec3.add x (Vec3.smul r_t r_hat)⟩

theorem Vec3.dot_self_ne_zero {R : Type} [LinearOrderedField R]
    (x : Vec3 R) (hx : x ≠ ⟨0, 0, 0⟩) : Vec3.dot x x ≠ 0 := by
  rcases x with ⟨a, b, c⟩
  intro h
  unfold Vec3.dot at h
  apply hx
  have ha : a = 0 := by nlinarith [mul_self_nonneg a, mul_self_nonneg b, mul_self_nonneg c]
  have hb : b = 0 := by nlinarith [mul_self_nonneg a, mul_self_nonneg b, mul_self_nonneg c]
  have hc : c = 0 := by nlinarith [mul_self_nonneg a, mul_self_nonneg b, mul_self_nonneg c]
  simp [ha, hb, hc]

theorem normalize_vector_dot_self {R : Type} [LinearOrderedField R]
    (prim : RealPrims R) (x : Vec3 R)
    (hsq : prim.sqrt (Vec3.dot x x) ^ 2 = Vec3.dot x x)
    (hS : Vec3.dot x x ≠ 0) :
    Vec3.dot (normalize_vector prim x) (normalize_vector prim x) = 1 := by
  unfold normalize_vector vectorNorm
  unfold Vec3.dot at hsq hS ⊢
  have hn0 : prim.sqrt (x.x * x.x + x.y * x.y + x.z * x.z) ≠ 0 := by
    intro h
    rw [h] at hsq
    exact hS (by rw [← hsq]; ring)
  field_simp
  linear_combination (-1 : R) * hsq

theorem Vec3.dot_smul_self {R : Type} [Field R] (c : R) (w : Vec3 R) :
    Vec3.dot (Vec3.smul c w) (Vec3.smul c w) = c ^ 2 * Vec3.dot w w := by
  unfold Vec3.dot Vec3.smul
  ring

/-- Claim C2: for a nonzero progenitor position, `lagrange_points` returns
`l1 = x - r_hat * r_t` and `l2 = x + r_hat * r_t` with `r_hat` the unit
vector from the host center to the progenitor and `r_t` the tidal radius,
so `l1` and `l2` are symmetric about `x` along `r_hat` with
`|l2 - x| = |x - l1| = r_t` exactly.  The square-root facts used
(`sqrt a ^ 2 = a` at the two radicands that occur, encoding `r_t ≥ 0` and
the correctness of the external square root) enter as hypotheses. -/
theorem lagrange_points_symmetric_about_progenitor {R : Type}
    [LinearOrderedField R] (prim : RealPrims R) (rtf : TidalRadiusFn R)
    (x v : Vec3 R) (mass t : R)
    (hx : x ≠ ⟨0, 0, 0⟩)
    (hsq : prim.sqrt (Vec3.dot x x) ^ 2 = Vec3.dot x x)
    (hrt : prim.sqrt (rtf x v mass t ^ 2) = rtf x v mass t) :
    (lagrange_points prim rtf x v mass t).l1
      = Vec3.sub x (Vec3.smul (rtf x v mass t) (normalize_vector prim x))
  ∧ (lagrange_points prim rtf x v mass t).l2
      = Vec3.add x (Vec3.smul (rtf x v mass t) (normalize_vector prim x))
  ∧ Vec3.add (lagrange_points prim rtf x v mass t).l1
      (lagrange_points prim rtf x v mass t).l2 = Vec3.smul 2 x
  ∧ vectorNorm prim (Vec3.sub (lagrange_points prim rtf x v mass t).l2 x)
      = rtf x v mass t
  ∧ vectorNorm prim (Vec3.sub x (lagrange_points prim rtf x v mass t).l1)
      = rtf x v mass t := by
  have hS := Vec3.dot_self_ne_zero x hx
  have hdd := normalize_vector_dot_self prim x hsq hS
  have h2 : Vec3.sub (lagrange_points prim rtf x v mass t).l2 x
      = Vec3.smul (rtf x v mass t) (normalize_vector prim x) := by
    show Vec3.sub (Vec3.add x (Vec3.smul (rtf x v mass t)
        (normalize_vector prim x))) x
      = Vec3.smul (rtf x v mass t) (normalize_vector prim x)
    unfold Vec3.sub Vec3.add Vec3.smul
    congr 1 <;> ring
  have h1 : Vec3.sub x (lagrange_points prim rtf x v mass t).l1
      = Vec3.smul (rtf x v mass t) (normalize_vector prim x) := by
    show Vec3.sub x (Vec3.sub x (Vec3.smul (rtf x v mass t)
        (normalize_vector prim x)))
      = Vec3.smul (rtf x v mass t) (normalize_vector prim x)
    unfold Vec3.sub Vec3.smul
    congr 1 <;> ring
  refine ⟨rfl, rfl, ?_, ?_, ?_⟩
  · show Vec3.add (Vec3.sub x (Vec3.smul (rtf x v mass t)
        (normalize_vector prim x)))
      (Vec3.add x (Vec3.smul (rtf x v mass t) (normalize_vector prim x)))
      = Vec3.smul 2 x
    unfold Vec3.sub Vec3.add Vec3.smul
    congr 1 <;> ring
  · rw [h2]
    unfold vectorNorm
    rw [Vec3.dot_smul_self, hdd, mul_one]
    exact hrt
  · rw [h1]
    unfold vectorNorm
    rw [Vec3.dot_smul_self, hdd, mul_one]
    exact hrt

/-- Primitive bundle over `ℚ` whose square root is exact on the two
radicands used by the C2 witness. -/
def primQsqrt : RealPrims ℚ :=
  ⟨fun a => if a = 1 then 1 else if a = 4 then 2 else 0,
    id, fun _ _ => 0, fun _ => 1, fun _ => 0, fun _ _ _ => 1⟩

/-- A constant tidal radius function returning `2`. -/
def rtfQ : TidalRadiusFn ℚ := fun _ _ _ _ => 2

/-- Witness for claim C2 at the progenitor position `(1, 0, 0)` with
tidal radius `2`. -/
theorem lagrange_points_symmetric_about_progenitor_witness :
    (lagrange_points primQsqrt rtfQ ⟨1, 0, 0⟩ ⟨0, 1, 0⟩ 1 0).l1
      = Vec3.sub ⟨1, 0, 0⟩ (Vec3.smul (rtfQ ⟨1, 0, 0⟩ ⟨0, 1, 0⟩ 1 0)
          (normalize_vector primQsqrt ⟨1, 0, 0⟩))
  ∧ (lagrange_points primQsqrt rtfQ ⟨1, 0, 0⟩ ⟨0, 1, 0⟩ 1 0).l2
      = Vec3.add ⟨1, 0, 0⟩ (Vec3.smul (rtfQ ⟨1, 0, 0⟩ ⟨0, 1, 0⟩ 1 0)
          (normalize_vector primQsqrt ⟨1, 0, 0⟩))
  ∧ Vec3.add (lagrange_points primQsqrt rtfQ ⟨1, 0, 0⟩ ⟨0, 1, 0⟩ 1 0).l1
      (lagrange_points primQsqrt rtfQ ⟨1, 0, 0⟩ ⟨0, 1, 0⟩ 1 0).l2
      = Vec3.smul 2 ⟨1, 0, 0⟩
  ∧ vectorNorm primQsqrt
      (Vec3.sub (lagrange_points primQsqrt rtfQ ⟨1, 0, 0⟩ ⟨0, 1, 0⟩ 1 0).l2
        ⟨1, 0, 0⟩)
      = rtfQ ⟨1, 0, 0⟩ ⟨0, 1, 0⟩ 1 0
  ∧ vectorNorm primQsqrt
      (Vec3.sub ⟨1, 0, 0⟩
        (lagrange_points primQsqrt rtfQ ⟨1, 0, 0⟩ ⟨0, 1, 0⟩ 1 0).l1)
      = rtfQ ⟨1, 0, 0⟩ ⟨0, 1, 0⟩ 1 0 :=
  lagrange_points_symmetric_about_progenitor primQsqrt rtfQ
    ⟨1, 0, 0⟩ ⟨0, 1, 0⟩ 1 0
    (by simp)
    (by norm_num [primQsqrt, Vec3.dot])
    (by norm_num [primQsqrt, rtfQ])

/-- Embedding of a `coordinax.Space` at the slots the overload reads:
its length (position) and speed (velocity) vectors. -/
structure Space (R : Type) where
  length : Vec3 R
  speed : Vec3 R

/-- Embedding of `coordinax.frames.AbstractCoordinate`: the wrapped data
space (the frame tag plays no role in the overload, which reads only
`coord.data`). -/
structure Coordinate (R : Type) where
  data : Space R

/-- Embedding of `galax.coordinates.AbstractPhaseSpaceCoordinate`:
position, velocity and a scalar time (on which `.squeeze()` is the
identity). -/
structure PhaseSpaceCoordinate (R : Type) where
  q : Vec3 R
  p : Vec3 R
  t : R

/-- Embedding of `galax.coordinates.PhaseSpacePosition`: position and
velocity, no time. -/
structure PhaseSpacePosition (R : Type) where
  q : Vec3 R
  p : Vec3 R

/-- The `cx.Space` overload of `lagrange_points`:
`lagrange_points(pot, space["length"], space["speed"], mass=mass, t=t)`. -/
def lagrange_points_space {R : Type} [Field R] (prim : RealPrims R)
    (rtf : TidalRadiusFn R) (space : Space R) (mass t : R) :
    L1L2LagrangePoints R :=
  lagrange_points prim rtf space.length space.speed mass t

/-- The `cx.frames.AbstractCoordinate` overload:
`lagrange_points(pot, coord.data, mass=mass, t=t)`. -/
def lagrange_points_coord {R : Type} [Field R] (prim : RealPrims R)
    (rtf : TidalRadiusFn R) (coord : Coordinate R) (mass t : R) :
    L1L2LagrangePoints R :=
  lagrange_points_space prim rtf coord.data mass t

/-- The `gc.AbstractPhaseSpaceCoordinate` overload:
`lagrange_points(pot, w.q, w.p, mass=mass, t=w.t.squeeze())`. -/
def lagrange_points_psc {R : Type} [Field R] (prim : RealPrims R)
    (rtf : TidalRadiusFn R) (w : PhaseSpaceCoordinate R) (mass : R) :
    L1L2LagrangePoints R :=
  lagrange_points prim rtf w.q w.p mass w.t

/-- The `gc.PhaseSpacePosition` overload:
`lagrange_points(pot, w.q, w.p, mass=mass, t=time)`. -/
def lagrange_points_psp {R : Type} [Field R] (prim : RealPrims R)
    (rtf : TidalRadiusFn R) (w : PhaseSpacePosition R) (mass time : R) :
    L1L2LagrangePoints R :=
  lagrange_points prim rtf w.q w.p mass time

/-- Claim C6: every overloaded entry point of `lagrange_points` reduces
its input to the canonical (position-vector, velocity-vector, time) form
and returns the same `L1L2LagrangePoints` as the vector-form entry point
applied to the extracted vectors. -/
theorem lagrange_points_overloads_reduce_to_vector_form {R : Type}
    [Field R] (prim : RealPrims R) (rtf : TidalRadiusFn R)
    (space : Space R) (coord : Coordinate R)
    (w : PhaseSpaceCoordinate R) (wp : PhaseSpacePosition R)
    (mass t time : R) :
    lagrange_points_space prim rtf space mass t
      = lagrange_points prim rtf space.length space.speed mass t
  ∧ lagrange_points_coord prim rtf coord mass t
      = lagrange_points prim rtf coord.data.length coord.data.speed mass t
  ∧ lagrange_points_psc prim rtf w mass
      = lagrange_points prim rtf w.q w.p mass w.t
  ∧ lagrange_points_psp prim rtf wp mass time
      = lagrange_points prim rtf wp.q wp.p mass time :=
  ⟨rfl, rfl, rfl, rfl⟩

/-- Modelled from the spec: the phase-space state of a tracer particle
(position, velocity, time); the mock-stream generator module is not among
the given sources. -/
structure MockParticle (R : Type) where
  q : Vec3 R
  p : Vec3 R
  t : R

/-- Modelled from the spec: `MockStreamGenerator.run` in sequential
("scan") mode.  The generator module is not among the given sources, so
this follows the spec: at each stripping time the distribution function
releases one leading and one trailing particle at the Lagrange points,
each is integrated independently to the final time (`integrate`), and the
output is ordered by tail assignment then timestep index. -/
def mockStreamRunScan {R : Type}
    (release : R → MockParticle R × MockParticle R)
    (integrate : MockParticle R → MockParticle R) (ts : List R) :
    List (MockParticle R) :=
  let step := fun (acc : List (MockParticle R) × List (MockParticle R))
      (u : R) =>
    (acc.1 ++ [integrate (release u).1], acc.2 ++ [integrate (release u).2])
  let fin := ts.foldl step ([], [])
  fin.1 ++ fin.2

/-- Modelled from the spec: `MockStreamGenerator.run` in fully parallel
("vmap") mode — every release-time is handled by an independent batched
evaluation, with the same output layout. -/
def mockStreamRunVmap {R : Type}
    (release : R → MockParticle R × MockParticle R)
    (integrate : MockParticle R → MockParticle R) (ts : List R) :
    List (MockParticle R) :=
  ts.map (fun u => integrate (release u).1)
    ++ ts.map (fun u => integrate (release u).2)

theorem mockStreamRunScan_foldl {R : Type}
    (release : R → MockParticle R × MockParticle R)
    (integrate : MockParticle R → MockParticle R) (ts : List R)
    (a b : List (MockParticle R)) :
    ts.foldl (fun (acc : List (MockParticle R) × List (MockParticle R))
        (u : R) =>
      (acc.1 ++ [integrate (release u).1],
        acc.2 ++ [integrate (release u).2])) (a, b)
      = (a ++ ts.map (fun u => integrate (release u).1),
          b ++ ts.map (fun u => integrate (release u).2)) := by
  induction ts generalizing a b with
  | nil => simp
  | cons u ts ih => simp [ih]

/-- Claim C3: for every list of `N` stripping times, the generated mock
stream contains exactly `2 N` tracer particles (two per release time, one
per tail), in both sequential ("scan") and parallel ("vmap") execution
modes, and the two modes produce identical output (in the exact-arithmetic
model every produced component is a value of the field, so finiteness of
positions, velocities and times is inherent). -/
theorem mock_stream_has_two_particles_per_release {R : Type}
    (release : R → MockParticle R × MockParticle R)
    (integrate : MockParticle R → MockParticle R) (ts : List R) :
    (mockStreamRunScan release integrate ts).length = 2 * ts.length
  ∧ (mockStreamRunVmap release integrate ts).length = 2 * ts.length
  ∧ mockStreamRunScan release integrate ts
      = mockStreamRunVmap release integrate ts := by
  have hscan : mockStreamRunScan release integrate ts
      = mockStreamRunVmap release integrate ts := by
    show (ts.foldl (fun (acc : List (MockParticle R) × List (MockParticle R))
          (u : R) =>
        (acc.1 ++ [integrate (release u).1],
          acc.2 ++ [integrate (release u).2])) ([], [])).1
        ++ (ts.foldl (fun (acc : List (MockParticle R)
              × List (MockParticle R)) (u : R) =>
          (acc.1 ++ [integrate (release u).1],
            acc.2 ++ [integrate (release u).2])) ([], [])).2
      = ts.map (fun u => integrate (release u).1)
          ++ ts.map (fun u => integrate (release u).2)
    rw [mockStreamRunScan_foldl]
    simp
  refine ⟨?_, ?_, hscan⟩
  · rw [hscan]
    unfold mockStreamRunVmap
    simp
    omega
  · unfold mockStreamRunVmap
    simp
    omega

/-- Python truthiness `a or b` on natural numbers: `a` if `a ≠ 0`,
else `b`. -/
def pyOr (a b : ℕ) : ℕ := if a = 0 then b else a

/-- Embedding of `AbstractCompositePhaseSpacePosition.__len__`:
`sum([len(w) or 1 for w in self.values()])`, over the list of the
own lengths of the components. -/
def composite_len (lens : List ℕ) : ℕ :=
  (lens.map (fun w => pyOr w 1)).sum

/-- Claim C9: the length of a composite phase-space position is the sum
of the lengths of its components with every length-0 component
contributing 1 — equivalently, the plain sum of the component lengths
plus the number of length-0 components. -/
theorem composite_len_eq_sum_with_zero_as_one (lens : List ℕ) :
    composite_len lens = lens.sum + lens.count 0 := by
  induction lens with
  | nil => rfl
  | cons a l ih =>
      unfold composite_len at ih ⊢
      rw [List.map_cons, List.sum_cons, ih, List.sum_cons, List.count_cons]
      rcases eq_or_ne a 0 with h | h <;> simp [pyOr, h] <;> omega
